import Mathlib

/-!
Verification of the slice sample-library front-end logic.

The definitions below are shallow embeddings of the TypeScript source in
`apps/desktop/src/components/SampleBrowser.tsx` and
`apps/desktop/src/components/FolderTreeSelector.tsx`.
JS strings are modelled as Lean `String`s, JS numbers occurring as integers
(bpm, duration, ids) as `Int`, waveform peak values as `ℚ`, JS `Set`s as
`List`s of their elements (insertion order), and JS objects used as string
maps as association lists.
-/

namespace Slice

/-- Sample record, translated from the `Sample` interface in `types.ts`. -/
structure Sample where
  id : Int := 0
  local_path : String := ""
  filename : String := ""
  audio_key : Option String := none
  bpm : Option Int := none
  chord_type : Option String := none
  duration : Option Int := none
  genre : Option String := none
  sample_type : Option String := none
  tags : Option String := none
  pack_uuid : Option String := none
  pack_name : Option String := none
  pack_genre : Option String := none
  created_at : Option String := none
  deriving Repr, DecidableEq

/-- JS `hay.includes(q)` substring test, on the character lists. -/
def jsIncludes (hay q : String) : Bool :=
  decide (q.data <:+: hay.data)

/-- JS `a || b` on two nullable strings: `a` wins unless it is null or empty
(empty strings are falsy in JS). Used for `s.genre || s.pack_genre`. -/
def jsOrStr (a b : Option String) : Option String :=
  match a with
  | some s => if s.isEmpty then b else some s
  | none => b

/-- Translation of `formatKey` (SampleBrowser.tsx): `null` for a null or empty
key (the `!audioKey` falsy test), otherwise the key with its first character
upper-cased, with an `"m"` suffix when the chord type is `"minor"`. -/
def formatKey (audioKey : Option String) (chordType : Option String) : Option String :=
  match audioKey with
  | none => none
  | some k =>
    match k.data with
    | [] => none
    | c :: cs =>
      let k := String.mk (c.toUpper :: cs)
      if chordType = some "minor" then some (k ++ "m") else some k

/-- JS `tags.split(",").map((t) => t.trim())`. -/
def splitTags (tags : String) : List String :=
  (tags.splitOn ",").map String.trim

/-- BPM range filter parameter (the `BpmRange` interface). -/
structure BpmRange where
  min : Int
  max : Int
  deriving Repr, DecidableEq

/-- Free-text predicate of `applyFilters`: lowercased query `q` is a substring
of the lowercased filename, pack name (null ↦ `""`) or raw tags string. -/
def queryPass (q : String) (s : Sample) : Bool :=
  jsIncludes s.filename.toLower q ||
  jsIncludes (s.pack_name.getD "").toLower q ||
  jsIncludes (s.tags.getD "").toLower q

/-- Free-text stage of `applyFilters` (lines 167-174): only applied when the
query has at least 2 characters. -/
def filterQuery (query : String) (r : List Sample) : List Sample :=
  if 2 ≤ query.length then r.filter (queryPass query.toLower) else r

/-- Genre predicate of `applyFilters`: effective genre `s.genre || s.pack_genre`
must be non-null and in the selected set. -/
def genrePass (sel : List String) (s : Sample) : Bool :=
  match jsOrStr s.genre s.pack_genre with
  | some g => sel.contains g
  | none => false

/-- Genre stage of `applyFilters` (lines 176-181). -/
def filterGenres (sel : List String) (r : List Sample) : List Sample :=
  if 0 < sel.length then r.filter (genrePass sel) else r

/-- BPM predicate of `applyFilters`: bpm non-null and inside the inclusive range. -/
def bpmPass (rg : BpmRange) (s : Sample) : Bool :=
  match s.bpm with
  | some b => decide (rg.min ≤ b) && decide (b ≤ rg.max)
  | none => false

/-- BPM stage of `applyFilters` (line 183): only applied when a range is active. -/
def filterBpm (range : Option BpmRange) (r : List Sample) : List Sample :=
  match range with
  | some rg => r.filter (bpmPass rg)
  | none => r

/-- Key predicate of `applyFilters`: formatted key non-null and in the set. -/
def keyPass (sel : List String) (s : Sample) : Bool :=
  match formatKey s.audio_key s.chord_type with
  | some k => sel.contains k
  | none => false

/-- Key stage of `applyFilters` (lines 185-190). -/
def filterKeys (sel : List String) (r : List Sample) : List Sample :=
  if 0 < sel.length then r.filter (keyPass sel) else r

/-- Sample-type stage of `applyFilters` (lines 192-194). -/
def filterType (ty : String) (r : List Sample) : List Sample :=
  if ty ≠ "all" then r.filter (fun s => s.sample_type == some ty) else r

/-- Tag-intersection predicate shared by the instrument and include-tags
stages: null or empty tags fail; otherwise the trimmed tag list must
intersect the selected set. -/
def tagsIntersect (sel : List String) (s : Sample) : Bool :=
  match s.tags with
  | some tg => if tg.isEmpty then false else (splitTags tg).any sel.contains
  | none => false

/-- Instrument stage of `applyFilters` (lines 196-202). -/
def filterInstruments (sel : List String) (r : List Sample) : List Sample :=
  if 0 < sel.length then r.filter (tagsIntersect sel) else r

/-- Include-tags stage of `applyFilters` (lines 204-210). -/
def filterInclude (sel : List String) (r : List Sample) : List Sample :=
  if 0 < sel.length then r.filter (tagsIntersect sel) else r

/-- Exclude predicate of `applyFilters`: null or empty tags pass; otherwise
the trimmed tag list must not intersect the excluded set. -/
def excludePass (sel : List String) (s : Sample) : Bool :=
  match s.tags with
  | some tg => if tg.isEmpty then true else !(splitTags tg).any sel.contains
  | none => true

/-- Exclude-tags stage of `applyFilters` (lines 212-218). -/
def filterExclude (sel : List String) (r : List Sample) : List Sample :=
  if 0 < sel.length then r.filter (excludePass sel) else r

/-- Translation of `applyFilters` (SampleBrowser.tsx lines 154-221): the eight
category stages applied in source order. -/
def applyFilters (samples : List Sample) (selectedGenres : List String)
    (bpmRange : Option BpmRange) (selectedKeys : List String) (sampleType : String)
    (selectedInstruments includeTags excludeTags : List String) (query : String) :
    List Sample :=
  filterExclude excludeTags
    (filterInclude includeTags
      (filterInstruments selectedInstruments
        (filterType sampleType
          (filterKeys selectedKeys
            (filterBpm bpmRange
              (filterGenres selectedGenres
                (filterQuery query samples)))))))

/-! Sorting (`sortSamples`, SampleBrowser.tsx lines 224-264). `Array.prototype.sort`
with a numeric comparator is modelled as a comparator-driven stable sort:
insertion sort that places each element before the first later element `y`
with `cmp x y ≤ 0`. The `"shuffle"` branch (Fisher-Yates with `Math.random`)
is modelled by an arbitrary permutation oracle passed as a parameter. -/

/-- Comparator-driven insertion step. -/
def insertCmp (le : α → α → Bool) (x : α) : List α → List α
  | [] => [x]
  | y :: ys => if le x y then x :: y :: ys else y :: insertCmp le x ys

/-- Comparator-driven stable sort. -/
def sortByCmp (le : α → α → Bool) : List α → List α
  | [] => []
  | x :: xs => insertCmp le x (sortByCmp le xs)

/-- Sort keys (the `SortBy` type in `types.ts`). -/
inductive SortKind where
  | filename
  | bpm
  | duration
  | recent
  | shuffle
  deriving Repr, DecidableEq

/-- Sort directions (the `SortDir` type in `types.ts`). -/
inductive SortDir where
  | asc
  | desc
  deriving Repr, DecidableEq

/-- Translation of `const dir = sortDir === "desc" ? -1 : 1`. -/
def dirOf : SortDir → Int
  | .desc => -1
  | .asc => 1

/-- String comparison returning a negative/zero/positive number, modelling
`String.prototype.localeCompare` in the default locale-agnostic reading. -/
def strCmp (a b : String) : Int :=
  if a < b then -1 else if b < a then 1 else 0

/-- Comparator of the `"bpm"` branch (lines 238-242). -/
def bpmCmp (dir : Int) (a b : Sample) : Int :=
  match a.bpm with
  | none => 1
  | some ab =>
    match b.bpm with
    | none => -1
    | some bb => (ab - bb) * dir

/-- Comparator of the `"duration"` branch (lines 245-249). -/
def durationCmp (dir : Int) (a b : Sample) : Int :=
  match a.duration with
  | none => 1
  | some ad =>
    match b.duration with
    | none => -1
    | some bd => (ad - bd) * dir

/-- Comparator of the `"recent"` branch (lines 252-256). -/
def recentCmp (dir : Int) (a b : Sample) : Int :=
  strCmp (b.created_at.getD "") (a.created_at.getD "") * dir

/-- Comparator of the `"filename"` branch (line 260). -/
def filenameCmp (dir : Int) (a b : Sample) : Int :=
  strCmp a.filename b.filename * dir

/-- Translation of `sortSamples` (lines 224-264). -/
def sortSamples (shuffleOracle : List Sample → List Sample) (samples : List Sample)
    (sortBy : SortKind) (sortDir : SortDir) : List Sample :=
  match sortBy with
  | .shuffle => shuffleOracle samples
  | .bpm => sortByCmp (fun a b => decide (bpmCmp (dirOf sortDir) a b ≤ 0)) samples
  | .duration => sortByCmp (fun a b => decide (durationCmp (dirOf sortDir) a b ≤ 0)) samples
  | .recent => sortByCmp (fun a b => decide (recentCmp (dirOf sortDir) a b ≤ 0)) samples
  | .filename => sortByCmp (fun a b => decide (filenameCmp (dirOf sortDir) a b ≤ 0)) samples

/-! Waveform peak downsampling (`downsample`, SampleBrowser.tsx lines 345-355).
Peak values are modelled as rationals; the index computation
`Math.floor(i * (peaks.length / target))` is modelled as the exact rational
floor `⌊i * peaks.length / target⌋`, i.e. natural division. -/

/-- Translation of `downsample` (lines 345-355). -/
def downsample (peaks : List ℚ) (target : Nat) : List ℚ :=
  if peaks.length ≤ target then peaks
  else
    (List.range target).map (fun i =>
      let start := i * peaks.length / target
      let stop := (i + 1) * peaks.length / target
      (List.range' start (stop - start)).foldl
        (fun m j => if peaks.getD j 0 > m then peaks.getD j 0 else m) 0)

/-! Cancellable single-slot LIFO decode queue (`_enqueue` / `_processQueue`,
SampleBrowser.tsx lines 316-343, used by `MiniWaveform`). The module-level
mutable state is modelled as an explicit state record; the JS array with
`push`/`pop` at the back is modelled as a list with its most recently pushed
item first. Each enqueued decode thunk is identified by a numeric id;
`executed` records the ids whose thunk was actually invoked. The
single-threaded JS event loop is modelled as a sequence of atomic events:
`enqueue id` (`_enqueue` and its trailing `_processQueue` call), `cancel id`
(the closure returned by `_enqueue` setting `item.cancelled = true`) and
`finish` (the `finally` handler: decrement `_activeReqs`, re-run
`_processQueue`). -/

/-- Queue entry (`_QueueItem`). -/
structure QueueItem where
  id : Nat
  cancelled : Bool
  deriving Repr, DecidableEq

/-- Module-level queue state (`_queue`, `_activeReqs`) plus the decode log. -/
structure DecodeQueueState where
  queue : List QueueItem
  activeReqs : Nat
  executed : List Nat
  deriving Repr, DecidableEq

/-- Translation of `_MAX_CONCURRENT = 1`. -/
def MAX_CONCURRENT : Nat := 1

/-- Loop body of `_processQueue`: pop (most recent first), skip cancelled
items, start the first live item (`_activeReqs++`, invoke its thunk). -/
def drainStart (a : Nat) (ex : List Nat) : List QueueItem → DecodeQueueState
  | [] => ⟨[], a, ex⟩
  | item :: rest =>
    if item.cancelled then drainStart a ex rest
    else ⟨rest, a + 1, item.id :: ex⟩

/-- Translation of `_processQueue` (lines 324-336). -/
def processQueue (s : DecodeQueueState) : DecodeQueueState :=
  if s.activeReqs < MAX_CONCURRENT then drainStart s.activeReqs s.executed s.queue
  else s

/-- Atomic events of the decode-queue event loop. -/
inductive QueueEvent where
  | enqueue (id : Nat)
  | cancel (id : Nat)
  | finish
  deriving Repr, DecidableEq

/-- One event step: `_enqueue` (lines 338-343), the cancel closure (line 342),
and the `finally` continuation of a completed decode (lines 329-333). -/
def queueStep (s : DecodeQueueState) (e : QueueEvent) : DecodeQueueState :=
  match e with
  | .enqueue id =>
    if s.activeReqs < MAX_CONCURRENT then
      processQueue ⟨⟨id, false⟩ :: s.queue, s.activeReqs, s.executed⟩
    else ⟨⟨id, false⟩ :: s.queue, s.activeReqs, s.executed⟩
  | .cancel id =>
    ⟨s.queue.map (fun it => if it.id = id then ⟨it.id, true⟩ else it),
      s.activeReqs, s.executed⟩
  | .finish =>
    if s.activeReqs = 0 then s
    else processQueue ⟨s.queue, s.activeReqs - 1, s.executed⟩

/-- Initial module state: empty queue, no active request, nothing decoded. -/
def initQueueState : DecodeQueueState := ⟨[], 0, []⟩

/-- Run a sequence of queue events from the initial state. -/
def runQueue (es : List QueueEvent) : DecodeQueueState :=
  es.foldl queueStep initQueueState

/-! JS `Set` operations, modelled on lists of elements in insertion order. -/

/-- JS `Set.prototype.add`: append the element unless already present. -/
def setAdd (l : List String) (x : String) : List String :=
  if x ∈ l then l else l ++ [x]

/-- JS `Set.prototype.delete`: remove the element. -/
def setDelete (l : List String) (x : String) : List String :=
  l.filter (fun y => y ≠ x)

/-- JS `s.startsWith(p)` on the character lists. -/
def jsStartsWith (s p : String) : Bool :=
  decide (p.data <+: s.data)

/-! Folder tree selection (`onToggleSelect`, FolderTreeSelector.tsx lines
247-263): toggling a selected path removes it; toggling an unselected path
first removes every selected strict descendant (`p.startsWith(path + "/")`)
and every selected strict ancestor (`path.startsWith(p + "/")`), then adds
the path. -/

/-- Translation of `onToggleSelect` (FolderTreeSelector.tsx lines 247-263). -/
def onToggleSelect (sel : List String) (path : String) : List String :=
  if path ∈ sel then setDelete sel path
  else
    setAdd
      ((sel.filter (fun p => !jsStartsWith p (path ++ "/"))).filter
        (fun p => !jsStartsWith path (p ++ "/")))
      path

/-! Tag three-state cycling (`cycleTag` / `removeTag`, SampleBrowser.tsx
lines 617-641). -/

/-- Translation of `cycleTag` (lines 618-633): none → include → exclude → none. -/
def cycleTag (inc exc : List String) (tag : String) : List String × List String :=
  if tag ∈ inc then (setDelete inc tag, setAdd exc tag)
  else if tag ∈ exc then (inc, setDelete exc tag)
  else (setAdd inc tag, exc)

/-- Translation of `removeTag` (lines 635-641): drop the tag from both sets. -/
def removeTag (inc exc : List String) (tag : String) : List String × List String :=
  (setDelete inc tag, setDelete exc tag)

/-! Conflict resolution (`ConflictResolver` / `handleConflictConfirm`,
FolderTreeSelector.tsx lines 124-146 and 329-342). -/

/-- Per-conflict user decision (`type ConflictAction = "replace" | "new"`). -/
inductive ConflictAction where
  | replace
  | addNew
  deriving Repr, DecidableEq

/-- Translation of the `PackConflict` interface in `types.ts`. -/
structure PackConflict where
  name : String
  existing_uuid : String
  existing_sample_count : Nat
  deriving Repr, DecidableEq

/-- Translation of `handleConflictConfirm` (lines 329-342): build the
`replaceMap` from the conflicts whose decision is `"replace"`. The JS object
is modelled as an association list queried with `List.lookup`. -/
def handleConflictConfirm (conflicts : List PackConflict)
    (decisions : String → ConflictAction) : List (String × String) :=
  conflicts.foldl
    (fun m c =>
      if decisions c.name = ConflictAction.replace then m ++ [(c.name, c.existing_uuid)]
      else m)
    []

/-! Pagination (SampleBrowser.tsx lines 545-554) and the page-reset effect.
`useEffect(() => setPage(0), [filtered, sortBy, shuffleSeed])` fires after a
render in which one of its dependencies changed under `Object.is`. The model
below embeds that dependency comparison. `filtered` is a `useMemo` of
`applyFilters` over nine inputs (line 535-538): the `samples` prop (held
fixed here), the memoized Sets `selectedGenres`/`selectedKeys`/
`selectedInstruments`/`includeTags`/`excludeTags` (each a memo whose only
dependency is the corresponding `filters` array field), the `bpmRange` memo
(dependencies `filters.bpmMin`/`filters.bpmMax`, both numbers), and the
primitives `sampleType` (`filters.type || "all"`) and `query`
(`filters.q || ""`). The routes' `cleanSampleSearch` merges an
`onFiltersChange` update with `{...prev, ...updates}`, so a field keeps its
identity unless the update carries it, in which case the caller passes a
freshly constructed array (`[...n]`) or a primitive; `cleanSampleSearch`
drops empty arrays, blank queries and `type === "all"`, so a field that is
empty before and after an update is `undefined` both times and its identity
is unchanged. The `filtered` array itself is reference-equal to `samples`
exactly when no stage of `applyFilters` is active (the function starts with
`let r = samples` and only active stages reassign `r` to a fresh
`r.filter(...)` array — see `applyFilters_inactive_eq` below for the
value-level half of this fact); recomputing with at least one active stage
always yields a fresh array, distinct from every earlier one. -/

/-- Translation of `const PAGE_SIZE = 50` (line 546). -/
def PAGE_SIZE : Nat := 50

/-- JS `Array.prototype.slice(a, b)`. -/
def jsSlice (l : List Sample) (a b : Nat) : List Sample :=
  (l.drop a).take (b - a)

/-- Translation of `displayed` (line 549): `sorted.slice(page*PAGE_SIZE,
(page+1)*PAGE_SIZE)`. -/
def displayedPage (sorted : List Sample) (page : Nat) : List Sample :=
  jsSlice sorted (page * PAGE_SIZE) ((page + 1) * PAGE_SIZE)

/-- Value state of the search params (`SampleFilterSearch` in `types.ts`),
with the component's read-time defaults applied: `filters.q || ""`,
`new Set(filters.genres || [])`, `filters.type || "all"`,
`filters.sortBy || "filename"`, `filters.sortDir || "asc"`. -/
structure FilterSearch where
  q : String := ""
  genres : List String := []
  bpmMin : Option Int := none
  bpmMax : Option Int := none
  keys : List String := []
  type : String := "all"
  instruments : List String := []
  includeTags : List String := []
  excludeTags : List String := []
  sortBy : SortKind := .filename
  sortDir : SortDir := .asc
  deriving Repr, DecidableEq

/-- An `onFiltersChange` argument (`Partial<SampleFilterSearch>`): `none`
means the field is not carried by the update; a carried array field is always
a freshly constructed array at the call sites (`[...n]`); a carried
`sortDir: undefined` (line 1057/1065) reads back as `"asc"` and is modelled
as the value `asc`. -/
structure FilterUpdate where
  q : Option String := none
  genres : Option (List String) := none
  bpmMin : Option (Option Int) := none
  bpmMax : Option (Option Int) := none
  keys : Option (List String) := none
  type : Option String := none
  instruments : Option (List String) := none
  includeTags : Option (List String) := none
  excludeTags : Option (List String) := none
  sortBy : Option SortKind := none
  sortDir : Option SortDir := none
  deriving Repr, DecidableEq

/-- Value-level result of `cleanSampleSearch(prev, updates)` =
`{...prev, ...updates}` (the dropping of empty/default fields only affects
identities, handled in `filteredDepsChanged`). -/
def applyUpdate (f : FilterSearch) (u : FilterUpdate) : FilterSearch :=
  { q := u.q.getD f.q
    genres := u.genres.getD f.genres
    bpmMin := u.bpmMin.getD f.bpmMin
    bpmMax := u.bpmMax.getD f.bpmMax
    keys := u.keys.getD f.keys
    type := u.type.getD f.type
    instruments := u.instruments.getD f.instruments
    includeTags := u.includeTags.getD f.includeTags
    excludeTags := u.excludeTags.getD f.excludeTags
    sortBy := u.sortBy.getD f.sortBy
    sortDir := u.sortDir.getD f.sortDir }

/-- The `bpmRange` memo value (lines 512-516): non-null iff both bounds are
non-null. -/
def bpmRangeOf (f : FilterSearch) : Option BpmRange :=
  match f.bpmMin, f.bpmMax with
  | some lo, some hi => some ⟨lo, hi⟩
  | _, _ => none

/-- Whether at least one stage of `applyFilters` is active for these filter
values — exactly the eight stage guards of lines 167-218. When all are false
`applyFilters` never reassigns `r`, so `filtered` is reference-equal to
`samples` (value-level counterpart: `applyFilters_inactive_eq`). -/
def activeAny (f : FilterSearch) : Bool :=
  decide (2 ≤ f.q.length) || !f.genres.isEmpty || (bpmRangeOf f).isSome ||
  !f.keys.isEmpty || decide (f.type ≠ "all") || !f.instruments.isEmpty ||
  !f.includeTags.isEmpty || !f.excludeTags.isEmpty

/-- Identity change of one array-backed memo input (a Set memo over a
`filters` array field): untouched fields keep their reference; a carried
field is a fresh array unless it is empty and the old value was also empty,
in which case `cleanSampleSearch` stores `undefined` both times. -/
def arrayDepChanged (carried : Option (List String)) (old : List String) : Bool :=
  match carried with
  | none => false
  | some newv => !(newv.isEmpty && old.isEmpty)

/-- Whether some dependency of the `filtered` memo (lines 535-538) changed
under `Object.is`, given the previous filter values and the update:
`query` and `sampleType` are strings compared by value; the five Set memos
change identity per `arrayDepChanged`; the `bpmRange` memo recomputes when a
bound's value changes and then yields a fresh object unless it is null before
and after (`null` is `Object.is`-equal to `null`). -/
def filteredDepsChanged (old : FilterSearch) (u : FilterUpdate) : Bool :=
  let newF := applyUpdate old u
  decide (newF.q ≠ old.q) ||
  arrayDepChanged u.genres old.genres ||
  ((decide (newF.bpmMin ≠ old.bpmMin) || decide (newF.bpmMax ≠ old.bpmMax)) &&
    !((bpmRangeOf old).isNone && (bpmRangeOf newF).isNone)) ||
  arrayDepChanged u.keys old.keys ||
  decide (newF.type ≠ old.type) ||
  arrayDepChanged u.instruments old.instruments ||
  arrayDepChanged u.includeTags old.includeTags ||
  arrayDepChanged u.excludeTags old.excludeTags

/-- Pagination-relevant component state: the filter values, whether the
current `filtered` array is a fresh array (as opposed to reference-equal to
the `samples` prop), the shuffle seed, and the page. -/
structure BrowserState where
  filters : FilterSearch
  filteredActive : Bool
  shuffleSeed : Nat
  page : Nat
  deriving Repr, DecidableEq

/-- User events that touch pagination state: an `onFiltersChange` call (all
filter chips, the search box at line 1013, the sort popover at lines
1055-1067), a shuffle click (lines 1056-1059: `onFiltersChange` plus
`setShuffleSeed(s+1)`), and the pagination buttons (`onPageChange`, lines
1523-1540). -/
inductive BrowserEvent where
  | filtersChange (u : FilterUpdate)
  | shuffleClick
  | pageSet (p : Nat)
  deriving Repr, DecidableEq

/-- One render with new filter values, a flag telling whether the `filtered`
memo's dependencies changed, and the new shuffle seed. The memo recomputes
only when `depsChanged`; the recomputed array is fresh iff some stage is
active. The effect (lines 552-554) then fires — resetting the page — iff
`filtered` changed reference (recomputed, and fresh before or after), or
`sortBy` changed, or `shuffleSeed` changed. -/
def renderStep (s : BrowserState) (newF : FilterSearch) (depsChanged : Bool)
    (newSeed : Nat) : BrowserState :=
  let newActive := if depsChanged then activeAny newF else s.filteredActive
  let filteredChanged := depsChanged && (activeAny newF || s.filteredActive)
  let reset := filteredChanged || decide (newF.sortBy ≠ s.filters.sortBy) ||
    decide (newSeed ≠ s.shuffleSeed)
  { filters := newF
    filteredActive := newActive
    shuffleSeed := newSeed
    page := if reset then 0 else s.page }

/-- One step of the pagination state machine. -/
def browserStep (s : BrowserState) (e : BrowserEvent) : BrowserState :=
  match e with
  | .filtersChange u =>
    renderStep s (applyUpdate s.filters u) (filteredDepsChanged s.filters u)
      s.shuffleSeed
  | .shuffleClick =>
    renderStep s
      (applyUpdate s.filters { sortBy := some SortKind.shuffle, sortDir := some SortDir.asc })
      (filteredDepsChanged s.filters
        { sortBy := some SortKind.shuffle, sortDir := some SortDir.asc })
      (s.shuffleSeed + 1)
  | .pageSet p => { s with page := p }

/-- Initial browser state: default filters, `filtered` reference-equal to
`samples` (no active stage), seed 0, page 0. -/
def initBrowserState : BrowserState := ⟨{}, false, 0, 0⟩

/-- First sample of the spec's filter-composition example: genre "A", bpm 90. -/
def exampleA : Sample := { genre := some "A", bpm := some 90 }

/-- Second sample of the example: genre "B", bpm 120. -/
def exampleB : Sample := { genre := some "B", bpm := some 120 }

/-- Third sample of the example: genre "A", bpm 150. -/
def exampleC : Sample := { genre := some "A", bpm := some 150 }

/-- Queue-state predicate for a cancelled, never-executed request id: every
queued item carrying the id is marked cancelled, and the id was never decoded. -/
def IdCancelled (id : Nat) (s : DecodeQueueState) : Prop :=
  (∀ it ∈ s.queue, it.id = id → it.cancelled = true) ∧ id ∉ s.executed

/-- Invariant of the folder-tree selection: no selected path is a strict
descendant of another selected path. -/
def NoNesting (sel : List String) : Prop :=
  ∀ p ∈ sel, ∀ q ∈ sel, jsStartsWith q (p ++ "/") = false

/-! ### Membership characterizations of the filter stages -/

theorem mem_filterQuery {query : String} {r : List Sample} {s : Sample} :
    s ∈ filterQuery query r ↔
      s ∈ r ∧ (2 ≤ query.length → queryPass query.toLower s = true) := by
  unfold filterQuery
  by_cases h : 2 ≤ query.length
  · simp [h, List.mem_filter]
  · simp [h]

theorem mem_filterGenres {sel : List String} {r : List Sample} {s : Sample} :
    s ∈ filterGenres sel r ↔
      s ∈ r ∧ (0 < sel.length → genrePass sel s = true) := by
  unfold filterGenres
  by_cases h : 0 < sel.length
  · simp [h, List.mem_filter]
  · simp [h]

theorem mem_filterBpm {range : Option BpmRange} {r : List Sample} {s : Sample} :
    s ∈ filterBpm range r ↔
      s ∈ r ∧ (∀ rg, range = some rg → bpmPass rg s = true) := by
  cases range with
  | none => simp [filterBpm]
  | some rg => simp [filterBpm, List.mem_filter]

theorem mem_filterKeys {sel : List String} {r : List Sample} {s : Sample} :
    s ∈ filterKeys sel r ↔
      s ∈ r ∧ (0 < sel.length → keyPass sel s = true) := by
  unfold filterKeys
  by_cases h : 0 < sel.length
  · simp [h, List.mem_filter]
  · simp [h]

theorem mem_filterType {ty : String} {r : List Sample} {s : Sample} :
    s ∈ filterType ty r ↔
      s ∈ r ∧ (ty ≠ "all" → (s.sample_type == some ty) = true) := by
  unfold filterType
  by_cases h : ty ≠ "all"
  · simp [h, List.mem_filter]
  · simp [h]

theorem mem_filterInstruments {sel : List String} {r : List Sample} {s : Sample} :
    s ∈ filterInstruments sel r ↔
      s ∈ r ∧ (0 < sel.length → tagsIntersect sel s = true) := by
  unfold filterInstruments
  by_cases h : 0 < sel.length
  · simp [h, List.mem_filter]
  · simp [h]

theorem mem_filterInclude {sel : List String} {r : List Sample} {s : Sample} :
    s ∈ filterInclude sel r ↔
      s ∈ r ∧ (0 < sel.length → tagsIntersect sel s = true) := by
  unfold filterInclude
  by_cases h : 0 < sel.length
  · simp [h, List.mem_filter]
  · simp [h]

theorem mem_filterExclude {sel : List String} {r : List Sample} {s : Sample} :
    s ∈ filterExclude sel r ↔
      s ∈ r ∧ (0 < sel.length → excludePass sel s = true) := by
  unfold filterExclude
  by_cases h : 0 < sel.length
  · simp [h, List.mem_filter]
  · simp [h]

/-- C1: filter categories compose by logical AND — a sample is in the result
iff it is in the input and passes every active category predicate; within a
category membership is an OR over the selected set (shown for genres); and on
the three-sample example with genres {A} and BPM range [80,100] the result is
exactly the first sample. -/
theorem applyFilters_and_composition :
    (∀ (samples : List Sample) (selectedGenres : List String)
        (bpmRange : Option BpmRange) (selectedKeys : List String)
        (sampleType : String) (selectedInstruments includeTags excludeTags : List String)
        (query : String) (s : Sample),
      s ∈ applyFilters samples selectedGenres bpmRange selectedKeys sampleType
            selectedInstruments includeTags excludeTags query ↔
        s ∈ samples ∧
        (2 ≤ query.length → queryPass query.toLower s = true) ∧
        (0 < selectedGenres.length → genrePass selectedGenres s = true) ∧
        (∀ rg, bpmRange = some rg → bpmPass rg s = true) ∧
        (0 < selectedKeys.length → keyPass selectedKeys s = true) ∧
        (sampleType ≠ "all" → (s.sample_type == some sampleType) = true) ∧
        (0 < selectedInstruments.length → tagsIntersect selectedInstruments s = true) ∧
        (0 < includeTags.length → tagsIntersect includeTags s = true) ∧
        (0 < excludeTags.length → excludePass excludeTags s = true)) ∧
    (∀ (sel : List String) (s : Sample),
      genrePass sel s = true ↔
        ∃ g, jsOrStr s.genre s.pack_genre = some g ∧ g ∈ sel) ∧
    applyFilters [exampleA, exampleB, exampleC] ["A"] (some ⟨80, 100⟩) [] "all"
        [] [] [] "" = [exampleA] := by
  refine ⟨?_, ?_, by decide⟩
  · intro samples g br k ty ins inc exc q s
    simp only [applyFilters, mem_filterExclude, mem_filterInclude,
      mem_filterInstruments, mem_filterType, mem_filterKeys, mem_filterBpm,
      mem_filterGenres, mem_filterQuery]
    tauto
  · intro sel s
    unfold genrePass
    cases h : jsOrStr s.genre s.pack_genre with
    | none => simp
    | some g => simp [List.elem_iff]

/-- C4: the free-text filter is applied only for queries of length at least 2,
keeping a sample iff the lowercased query is a substring of the lowercased
filename, pack name or raw tags string; shorter queries leave the list
unchanged. -/
theorem filterQuery_spec (samples : List Sample) (query : String) :
    (2 ≤ query.length →
      ∀ s, s ∈ filterQuery query samples ↔
        s ∈ samples ∧
          (jsIncludes s.filename.toLower query.toLower = true ∨
           jsIncludes (s.pack_name.getD "").toLower query.toLower = true ∨
           jsIncludes (s.tags.getD "").toLower query.toLower = true)) ∧
    (query.length < 2 → filterQuery query samples = samples) := by
  constructor
  · intro h s
    rw [mem_filterQuery]
    simp only [h, forall_const, queryPass, Bool.or_eq_true]
    tauto
  · intro h
    unfold filterQuery
    rw [if_neg (by omega)]

/-- Closed instance of `filterQuery_spec`: the query "ki" (length ≥ 2) keeps
exactly the matching filename, and the query "k" (length < 2) keeps everything. -/
theorem filterQuery_spec_witness :
    (({ filename := "snare.wav" } : Sample) ∈
        filterQuery "ki" [{ filename := "Kick_01.wav" }, { filename := "snare.wav" }] ↔
      ({ filename := "snare.wav" } : Sample) ∈
          ([{ filename := "Kick_01.wav" }, { filename := "snare.wav" }] : List Sample) ∧
        (jsIncludes (String.toLower "snare.wav") (String.toLower "ki") = true ∨
         jsIncludes (String.toLower "") (String.toLower "ki") = true ∨
         jsIncludes (String.toLower "") (String.toLower "ki") = true)) ∧
    filterQuery "k" [{ filename := "Kick_01.wav" }, { filename := "snare.wav" }] =
      [{ filename := "Kick_01.wav" }, { filename := "snare.wav" }] :=
  ⟨(filterQuery_spec [{ filename := "Kick_01.wav" }, { filename := "snare.wav" }] "ki").1
      (by decide) { filename := "snare.wav" },
   (filterQuery_spec [{ filename := "Kick_01.wav" }, { filename := "snare.wav" }] "k").2
      (by decide)⟩

/-- C5: with an active BPM range a sample is kept iff its bpm is non-null and
inside the inclusive range; null-bpm samples are always excluded; with no
active range the stage keeps the list unchanged. -/
theorem filterBpm_spec (samples : List Sample) (rg : BpmRange) :
    (∀ s, s ∈ filterBpm (some rg) samples ↔
        s ∈ samples ∧ ∃ b, s.bpm = some b ∧ rg.min ≤ b ∧ b ≤ rg.max) ∧
    (∀ s, s.bpm = none → s ∉ filterBpm (some rg) samples) ∧
    filterBpm none samples = samples := by
  refine ⟨?_, ?_, rfl⟩
  · intro s
    rw [mem_filterBpm]
    unfold bpmPass
    cases h : s.bpm with
    | none => simp [h]
    | some b => simp [h]
  · intro s hb hmem
    rw [mem_filterBpm] at hmem
    have := hmem.2 rg rfl
    unfold bpmPass at this
    rw [hb] at this
    exact Bool.false_ne_true this

/-- Closed instance of `filterBpm_spec`: with range [80,100], a null-bpm
sample is excluded and a bpm-90 sample is kept. -/
theorem filterBpm_spec_witness :
    (({ bpm := none } : Sample) ∉
        filterBpm (some ⟨80, 100⟩) [{ bpm := none }, { bpm := some 90 }]) ∧
    (({ bpm := some 90 } : Sample) ∈
        filterBpm (some ⟨80, 100⟩) [{ bpm := none }, { bpm := some 90 }]) :=
  ⟨(filterBpm_spec [{ bpm := none }, { bpm := some 90 }] ⟨80, 100⟩).2.1
      { bpm := none } rfl,
   ((filterBpm_spec [{ bpm := none }, { bpm := some 90 }] ⟨80, 100⟩).1
      { bpm := some 90 }).mpr ⟨by decide, 90, rfl, by decide, by decide⟩⟩

/-! ### Comparator-sort lemmas -/

theorem mem_insertCmp {le : α → α → Bool} {x y : α} {l : List α} :
    y ∈ insertCmp le x l ↔ y = x ∨ y ∈ l := by
  induction l with
  | nil => simp [insertCmp]
  | cons z zs ih =>
    unfold insertCmp
    by_cases h : le x z
    · rw [if_pos h]
      simp [List.mem_cons]
    · rw [if_neg h]
      simp only [List.mem_cons, ih]
      tauto

theorem pairwise_insertCmp {le : α → α → Bool} {R : α → α → Prop}
    (hT : ∀ a b, le a b = true → R a b) (hF : ∀ a b, le a b = false → R b a)
    (hTrans : ∀ a b c, R a b → R b c → R a c) (x : α) :
    ∀ {l : List α}, l.Pairwise R → (insertCmp le x l).Pairwise R := by
  intro l
  induction l with
  | nil =>
    intro _
    simp [insertCmp]
  | cons y ys ih =>
    intro hp
    rw [List.pairwise_cons] at hp
    obtain ⟨hy, hys⟩ := hp
    unfold insertCmp
    by_cases h : le x y
    · rw [if_pos h]
      have hxy := hT _ _ h
      refine List.Pairwise.cons ?_ (List.Pairwise.cons hy hys)
      intro z hz
      rcases List.mem_cons.mp hz with rfl | hz
      · exact hxy
      · exact hTrans _ _ _ hxy (hy z hz)
    · rw [if_neg h]
      have hf : le x y = false := by
        revert h
        cases le x y <;> simp
      refine List.Pairwise.cons ?_ (ih hys)
      intro z hz
      rcases mem_insertCmp.mp hz with rfl | hz
      · exact hF _ _ hf
      · exact hy z hz

theorem pairwise_sortByCmp {le : α → α → Bool} {R : α → α → Prop}
    (hT : ∀ a b, le a b = true → R a b) (hF : ∀ a b, le a b = false → R b a)
    (hTrans : ∀ a b c, R a b → R b c → R a c) :
    ∀ l : List α, (sortByCmp le l).Pairwise R := by
  intro l
  induction l with
  | nil => simp [sortByCmp]
  | cons x xs ih => exact pairwise_insertCmp hT hF hTrans x ih

/-- C3: for every sample list and both directions, sorting by bpm places every
null-bpm sample after all non-null-bpm samples, and sorting by duration
places every null-duration sample after all non-null-duration samples. -/
theorem sortSamples_nulls_last (shuffleOracle : List Sample → List Sample)
    (samples : List Sample) (dir : SortDir) :
    (sortSamples shuffleOracle samples SortKind.bpm dir).Pairwise
      (fun a b => a.bpm = none → b.bpm = none) ∧
    (sortSamples shuffleOracle samples SortKind.duration dir).Pairwise
      (fun a b => a.duration = none → b.duration = none) := by
  constructor
  · show (sortByCmp _ samples).Pairwise _
    apply pairwise_sortByCmp
    · intro a b hle ha
      exfalso
      unfold bpmCmp at hle
      rw [ha] at hle
      simp at hle
    · intro a b hle hb
      by_cases ha : a.bpm = none
      · exact ha
      · exfalso
        obtain ⟨ab, hab⟩ := Option.ne_none_iff_exists'.mp ha
        unfold bpmCmp at hle
        rw [hab, hb] at hle
        simp at hle
    · intro a b c hab hbc ha
      exact hbc (hab ha)
  · show (sortByCmp _ samples).Pairwise _
    apply pairwise_sortByCmp
    · intro a b hle ha
      exfalso
      unfold durationCmp at hle
      rw [ha] at hle
      simp at hle
    · intro a b hle hb
      by_cases ha : a.duration = none
      · exact ha
      · exfalso
        obtain ⟨ad, had⟩ := Option.ne_none_iff_exists'.mp ha
        unfold durationCmp at hle
        rw [had, hb] at hle
        simp at hle
    · intro a b c hab hbc ha
      exact hbc (hab ha)

/-! ### Downsampling lemmas -/

/-- Running-maximum step of `downsample`'s inner loop. -/
theorem foldPeak_self_le (l : List ℚ) :
    ∀ a : ℚ, a ≤ l.foldl (fun m x => if x > m then x else m) a := by
  induction l with
  | nil => intro a; simp
  | cons y ys ih =>
    intro a
    simp only [List.foldl_cons]
    by_cases h : y > a
    · rw [if_pos h]
      exact le_of_lt (lt_of_lt_of_le h (ih y))
    · rw [if_neg h]
      exact ih a

theorem foldPeak_le_of_mem (l : List ℚ) :
    ∀ (a x : ℚ), x ∈ l → x ≤ l.foldl (fun m x => if x > m then x else m) a := by
  induction l with
  | nil => intro a x hx; cases hx
  | cons y ys ih =>
    intro a x hx
    simp only [List.foldl_cons]
    rcases List.mem_cons.mp hx with rfl | hx
    · by_cases h : x > a
      · rw [if_pos h]
        exact foldPeak_self_le ys x
      · rw [if_neg h]
        exact le_trans (le_of_not_lt h) (foldPeak_self_le ys a)
    · by_cases h : y > a
      · rw [if_pos h]
        exact ih y x hx
      · rw [if_neg h]
        exact ih a x hx

theorem foldPeak_eq_or_mem (l : List ℚ) :
    ∀ a : ℚ, l.foldl (fun m x => if x > m then x else m) a = a ∨
      l.foldl (fun m x => if x > m then x else m) a ∈ l := by
  induction l with
  | nil => intro a; simp
  | cons y ys ih =>
    intro a
    simp only [List.foldl_cons]
    by_cases h : y > a
    · rw [if_pos h]
      rcases ih y with h' | h'
      · exact Or.inr (List.mem_cons.mpr (Or.inl h'))
      · exact Or.inr (List.mem_cons.mpr (Or.inr h'))
    · rw [if_neg h]
      rcases ih a with h' | h'
      · exact Or.inl h'
      · exact Or.inr (List.mem_cons.mpr (Or.inr h'))

/-- C8: for peaks within [0,1] and target ≥ 1, `downsample` returns the input
unchanged when it is short enough; otherwise the output has exactly `target`
elements, the i-th being the maximum of the input over the index window
[⌊i·n/t⌋, ⌊(i+1)·n/t⌋): it is one of the window's values, an upper bound of
them, lies in [0,1], and is one of the input's values. -/
theorem downsample_spec (p : List ℚ) (t : Nat)
    (hp : ∀ x ∈ p, 0 ≤ x ∧ x ≤ 1) (ht : 1 ≤ t) :
    (p.length ≤ t → downsample p t = p) ∧
    (t < p.length →
      (downsample p t).length = t ∧
      ∀ i, i < t →
        (downsample p t).getD i 0 ∈
            (List.range' (i * p.length / t) ((i + 1) * p.length / t - i * p.length / t)).map
              (fun j => p.getD j 0) ∧
        (∀ x ∈ (List.range' (i * p.length / t) ((i + 1) * p.length / t - i * p.length / t)).map
              (fun j => p.getD j 0), x ≤ (downsample p t).getD i 0) ∧
        0 ≤ (downsample p t).getD i 0 ∧ (downsample p t).getD i 0 ≤ 1 ∧
        (downsample p t).getD i 0 ∈ p) := by
  constructor
  · intro hle
    unfold downsample
    rw [if_pos hle]
  · intro hlt
    have hnle : ¬ p.length ≤ t := by omega
    have hlen : (downsample p t).length = t := by
      unfold downsample
      rw [if_neg hnle]
      simp
    refine ⟨hlen, ?_⟩
    intro i hi
    set n := p.length with hn
    set start := i * n / t with hstart
    set stop := (i + 1) * n / t with hstop
    have ht0 : 0 < t := ht
    -- the i-th output value is the window fold
    have hv : (downsample p t).getD i 0 =
        (List.range' start (stop - start)).foldl
          (fun m j => if p.getD j 0 > m then p.getD j 0 else m) 0 := by
      unfold downsample
      rw [if_neg hnle]
      have hi' : i < ((List.range t).map fun i =>
          (List.range' (i * p.length / t) ((i + 1) * p.length / t - i * p.length / t)).foldl
            (fun m j => if p.getD j 0 > m then p.getD j 0 else m) 0).length := by
        simpa using hi
      rw [List.getD_eq_getElem _ _ hi', List.getElem_map]
      simp [List.getElem_range]
    -- window bounds
    have hwindow_lt : start < stop := by
      have h1 : i * n + t ≤ (i + 1) * n := by
        have : t ≤ n := le_of_lt hlt
        nlinarith
      have h2 : (i * n + t) / t ≤ (i + 1) * n / t := Nat.div_le_div_right h1
      rw [Nat.add_div_right _ ht0] at h2
      omega
    have hstop_le : stop ≤ n := by
      have h1 : (i + 1) * n ≤ t * n := by
        have : i + 1 ≤ t := hi
        exact Nat.mul_le_mul_right n this
      have h2 : (i + 1) * n / t ≤ t * n / t := Nat.div_le_div_right h1
      rwa [Nat.mul_div_cancel_left n ht0] at h2
    -- every window value is a value of p
    have hmem_p : ∀ x ∈ (List.range' start (stop - start)).map (fun j => p.getD j 0),
        x ∈ p := by
      intro x hx
      obtain ⟨j, hj, rfl⟩ := List.mem_map.mp hx
      rw [List.mem_range'_1] at hj
      have hjn : j < n := by omega
      rw [List.getD_eq_getElem _ _ (by omega : j < p.length)]
      exact List.getElem_mem _
    -- rewrite the index fold as a fold over the mapped window values
    have hfold : (List.range' start (stop - start)).foldl
        (fun m j => if p.getD j 0 > m then p.getD j 0 else m) 0 =
        ((List.range' start (stop - start)).map (fun j => p.getD j 0)).foldl
          (fun m x => if x > m then x else m) 0 := by
      rw [List.foldl_map]
    set vals := (List.range' start (stop - start)).map (fun j => p.getD j 0) with hvals
    have hub : ∀ x ∈ vals, x ≤ (downsample p t).getD i 0 := by
      intro x hx
      rw [hv, hfold]
      exact foldPeak_le_of_mem vals 0 x hx
    have hvals_ne : vals ≠ [] := by
      rw [hvals]
      simp only [ne_eq, List.map_eq_nil_iff, List.range'_eq_nil]
      omega
    have hmem : (downsample p t).getD i 0 ∈ vals := by
      rw [hv, hfold]
      rcases foldPeak_eq_or_mem vals 0 with h0 | hm
      · -- the fold stayed at 0: every value is ≤ 0 but also ≥ 0, so 0 is in vals
        rw [h0]
        obtain ⟨x, hx⟩ := List.exists_mem_of_ne_nil vals hvals_ne
        have hx0 : 0 ≤ x := (hp x (hmem_p x hx)).1
        have hxle : x ≤ 0 := by
          have := foldPeak_le_of_mem vals 0 x hx
          rwa [h0] at this
        have : x = 0 := le_antisymm hxle hx0
        rwa [this] at hx
      · exact hm
    have hin_p : (downsample p t).getD i 0 ∈ p := hmem_p _ hmem
    exact ⟨hmem, hub, (hp _ hin_p).1, (hp _ hin_p).2, hin_p⟩

/-- Closed instance of `downsample_spec`: for p = [1/2, 1, 0, 1/4, 3/4] and
target 2 the output is [1, 3/4], whose first element is the maximum of the
window [0,2) and which has length 2; for target 5 the list is unchanged. -/
theorem downsample_spec_witness :
    downsample [1/2, 1, 0, 1/4, 3/4] 5 = [1/2, 1, 0, 1/4, 3/4] ∧
    (downsample [1/2, 1, 0, 1/4, 3/4] 2).length = 2 := by
  constructor
  · exact (downsample_spec [1/2, 1, 0, 1/4, 3/4] 5 (by norm_num) (by norm_num)).1
      (by norm_num)
  · exact ((downsample_spec [1/2, 1, 0, 1/4, 3/4] 2 (by norm_num) (by norm_num)).2
      (by norm_num)).1

/-! ### Decode-queue lemmas -/

theorem drainStart_active_le (a : Nat) (ex : List Nat) :
    ∀ q : List QueueItem, (drainStart a ex q).activeReqs ≤ a + 1 := by
  intro q
  induction q with
  | nil => simp [drainStart]
  | cons item rest ih =>
    unfold drainStart
    by_cases h : item.cancelled
    · rw [if_pos h]
      exact ih
    · rw [if_neg h]

theorem processQueue_active_le {s : DecodeQueueState}
    (h : s.activeReqs ≤ MAX_CONCURRENT) :
    (processQueue s).activeReqs ≤ MAX_CONCURRENT := by
  unfold processQueue
  by_cases h' : s.activeReqs < MAX_CONCURRENT
  · rw [if_pos h']
    have := drainStart_active_le s.activeReqs s.executed s.queue
    unfold MAX_CONCURRENT at *
    omega
  · rw [if_neg h']
    exact h

theorem queueStep_active_le {s : DecodeQueueState}
    (h : s.activeReqs ≤ MAX_CONCURRENT) (e : QueueEvent) :
    (queueStep s e).activeReqs ≤ MAX_CONCURRENT := by
  cases e with
  | enqueue id =>
    simp only [queueStep]
    by_cases hlt : s.activeReqs < MAX_CONCURRENT
    · rw [if_pos hlt]
      exact processQueue_active_le h
    · rw [if_neg hlt]
      exact h
  | cancel id =>
    exact h
  | finish =>
    simp only [queueStep]
    by_cases h0 : s.activeReqs = 0
    · rw [if_pos h0]
      exact h
    · rw [if_neg h0]
      apply processQueue_active_le
      show s.activeReqs - 1 ≤ MAX_CONCURRENT
      omega

theorem foldl_queueStep_active_le :
    ∀ (es : List QueueEvent) (s : DecodeQueueState),
      s.activeReqs ≤ MAX_CONCURRENT →
      (es.foldl queueStep s).activeReqs ≤ MAX_CONCURRENT := by
  intro es
  induction es with
  | nil => intro s h; exact h
  | cons e rest ih =>
    intro s h
    simp only [List.foldl_cons]
    exact ih _ (queueStep_active_le h e)

theorem drainStart_idCancelled {id : Nat} {a : Nat} {ex : List Nat}
    (hex : id ∉ ex) :
    ∀ q : List QueueItem, (∀ it ∈ q, it.id = id → it.cancelled = true) →
      IdCancelled id (drainStart a ex q) := by
  intro q
  induction q with
  | nil =>
    intro _
    exact ⟨by simp [drainStart], by simpa [drainStart] using hex⟩
  | cons item rest ih =>
    intro h
    unfold drainStart
    by_cases hc : item.cancelled
    · rw [if_pos hc]
      exact ih (fun it hit => h it (List.mem_cons.mpr (Or.inr hit)))
    · rw [if_neg hc]
      refine ⟨fun it hit => h it (List.mem_cons.mpr (Or.inr hit)), ?_⟩
      intro hmem
      rcases List.mem_cons.mp hmem with heq | hmem'
      · exact hc (h item (List.mem_cons.mpr (Or.inl rfl)) heq.symm)
      · exact hex hmem'

theorem processQueue_idCancelled {id : Nat} {s : DecodeQueueState}
    (h : IdCancelled id s) : IdCancelled id (processQueue s) := by
  unfold processQueue
  by_cases h' : s.activeReqs < MAX_CONCURRENT
  · rw [if_pos h']
    exact drainStart_idCancelled h.2 s.queue h.1
  · rw [if_neg h']
    exact h

theorem queueStep_idCancelled {id : Nat} {s : DecodeQueueState} {e : QueueEvent}
    (h : IdCancelled id s) (he : e ≠ QueueEvent.enqueue id) :
    IdCancelled id (queueStep s e) := by
  cases e with
  | enqueue idN =>
    have hid : idN ≠ id := fun hh => he (by rw [hh])
    have hq : ∀ it ∈ ({ id := idN, cancelled := false } : QueueItem) :: s.queue,
        it.id = id → it.cancelled = true := by
      intro it hit
      rcases List.mem_cons.mp hit with rfl | hit'
      · intro hx
        exact absurd hx hid
      · exact h.1 it hit'
    simp only [queueStep]
    by_cases hlt : s.activeReqs < MAX_CONCURRENT
    · rw [if_pos hlt]
      exact processQueue_idCancelled ⟨hq, h.2⟩
    · rw [if_neg hlt]
      exact ⟨hq, h.2⟩
  | cancel idN =>
    refine ⟨?_, h.2⟩
    intro it hit hid
    obtain ⟨it0, hit0, heq⟩ := List.mem_map.mp hit
    by_cases h0 : it0.id = idN
    · rw [if_pos h0] at heq
      rw [← heq]
    · rw [if_neg h0] at heq
      rw [← heq] at hid ⊢
      exact h.1 it0 hit0 hid
  | finish =>
    simp only [queueStep]
    by_cases h0 : s.activeReqs = 0
    · rw [if_pos h0]
      exact h
    · rw [if_neg h0]
      exact processQueue_idCancelled ⟨h.1, h.2⟩

theorem cancel_establishes_idCancelled (id : Nat) (s : DecodeQueueState)
    (hex : id ∉ s.executed) :
    IdCancelled id (queueStep s (QueueEvent.cancel id)) := by
  refine ⟨?_, hex⟩
  intro it hit hid
  obtain ⟨it0, hit0, heq⟩ := List.mem_map.mp hit
  by_cases h0 : it0.id = id
  · rw [if_pos h0] at heq
    rw [← heq]
  · rw [if_neg h0] at heq
    rw [← heq] at hid
    exact absurd hid h0

theorem foldl_queueStep_idCancelled {id : Nat} :
    ∀ (es : List QueueEvent) (s : DecodeQueueState),
      IdCancelled id s → QueueEvent.enqueue id ∉ es →
      IdCancelled id (es.foldl queueStep s) := by
  intro es
  induction es with
  | nil =>
    intro s h _
    exact h
  | cons e rest ih =>
    intro s h hne
    simp only [List.foldl_cons]
    refine ih _ (queueStep_idCancelled h ?_) ?_
    · intro heq
      exact hne (by rw [heq]; exact List.mem_cons_self _ _)
    · intro hmem
      exact hne (List.mem_cons.mpr (Or.inr hmem))

/-- C2: the single-slot decode queue never has more than one decode thunk
executing, and a request whose cancel function runs before its queue turn
(its id not yet decoded at the cancel, and not re-enqueued afterwards) is
never decoded at all. -/
theorem waveform_queue_spec (es pre post : List QueueEvent) (id : Nat)
    (hsplit : es = pre ++ QueueEvent.cancel id :: post)
    (hex : id ∉ (runQueue pre).executed)
    (hpost : QueueEvent.enqueue id ∉ post) :
    (∀ es' : List QueueEvent, (runQueue es').activeReqs ≤ MAX_CONCURRENT) ∧
    id ∉ (runQueue es).executed := by
  constructor
  · intro es'
    exact foldl_queueStep_active_le es' initQueueState (by simp [initQueueState])
  · rw [hsplit]
    show id ∉ ((pre ++ QueueEvent.cancel id :: post).foldl queueStep initQueueState).executed
    rw [List.foldl_append, List.foldl_cons]
    exact (foldl_queueStep_idCancelled post _
      (cancel_establishes_idCancelled id (runQueue pre) hex) hpost).2

/-- Closed instance of `waveform_queue_spec`: with requests 5 and 7 enqueued
(5 occupies the slot, 7 waits), cancelling 7 before the slot frees means 7 is
never decoded, even after the running decode finishes. -/
theorem waveform_queue_spec_witness :
    7 ∉ (runQueue [QueueEvent.enqueue 5, QueueEvent.enqueue 7,
      QueueEvent.cancel 7, QueueEvent.finish]).executed :=
  (waveform_queue_spec
    [QueueEvent.enqueue 5, QueueEvent.enqueue 7, QueueEvent.cancel 7, QueueEvent.finish]
    [QueueEvent.enqueue 5, QueueEvent.enqueue 7]
    [QueueEvent.finish] 7 rfl (by decide) (by decide)).2

/-! ### JS-Set and folder-tree lemmas -/

theorem mem_setAdd {l : List String} {x y : String} :
    y ∈ setAdd l x ↔ y ∈ l ∨ y = x := by
  unfold setAdd
  by_cases h : x ∈ l
  · rw [if_pos h]
    constructor
    · exact Or.inl
    · rintro (hy | rfl)
      · exact hy
      · exact h
  · rw [if_neg h]
    simp [List.mem_append]

theorem mem_setDelete {l : List String} {x y : String} :
    y ∈ setDelete l x ↔ y ∈ l ∧ y ≠ x := by
  unfold setDelete
  simp [List.mem_filter]

theorem jsStartsWith_self_slash (s : String) : jsStartsWith s (s ++ "/") = false := by
  unfold jsStartsWith
  rw [decide_eq_false_iff_not]
  intro h
  have hlen := h.length_le
  rw [String.data_append] at hlen
  simp at hlen

theorem noNesting_toggle {sel : List String} (h : NoNesting sel) (path : String) :
    NoNesting (onToggleSelect sel path) := by
  unfold onToggleSelect
  by_cases hmem : path ∈ sel
  · rw [if_pos hmem]
    intro p hp q hq
    rw [mem_setDelete] at hp hq
    exact h p hp.1 q hq.1
  · rw [if_neg hmem]
    intro p hp q hq
    rw [mem_setAdd] at hp hq
    rcases hp with hp | rfl
    · rcases hq with hq | rfl
      · have hp' := List.mem_filter.mp (List.mem_filter.mp hp).1
        have hq' := List.mem_filter.mp (List.mem_filter.mp hq).1
        exact h p hp'.1 q hq'.1
      · have hp' := (List.mem_filter.mp hp).2
        simpa using hp'
    · rcases hq with hq | rfl
      · have hq' := (List.mem_filter.mp (List.mem_filter.mp hq).1).2
        simpa using hq'
      · exact jsStartsWith_self_slash _

/-- C9: starting from the empty selection, after any sequence of toggle
operations no selected path is a strict descendant of another selected path;
and toggling an unselected path keeps exactly the previously selected paths
that are neither descendants nor ancestors of it, plus the path itself. -/
theorem onToggleSelect_no_nested_selection :
    (∀ ops : List String, ∀ p ∈ ops.foldl onToggleSelect [],
        ∀ q ∈ ops.foldl onToggleSelect [], jsStartsWith q (p ++ "/") = false) ∧
    (∀ (sel : List String) (path : String), path ∉ sel →
      ∀ p, p ∈ onToggleSelect sel path ↔
        (p = path ∨ (p ∈ sel ∧ jsStartsWith p (path ++ "/") = false ∧
          jsStartsWith path (p ++ "/") = false))) := by
  constructor
  · have hfold : ∀ (ops : List String) (sel : List String), NoNesting sel →
        NoNesting (ops.foldl onToggleSelect sel) := by
      intro ops
      induction ops with
      | nil => intro sel h; exact h
      | cons op rest ih =>
        intro sel h
        simp only [List.foldl_cons]
        exact ih _ (noNesting_toggle h op)
    intro ops
    exact hfold ops [] (by intro p hp; cases hp)
  · intro sel path hpath p
    unfold onToggleSelect
    rw [if_neg hpath, mem_setAdd, List.mem_filter, List.mem_filter]
    simp only [Bool.not_eq_true']
    tauto

/-- Closed instance of `onToggleSelect_no_nested_selection`: after toggling
"/a" and then "/a/b", the selection is exactly ["/a/b"], which is not a strict
descendant of itself; and toggling "/a/b" on ["/a"] removes the ancestor "/a". -/
theorem onToggleSelect_no_nested_selection_witness :
    jsStartsWith "/a/b" ("/a/b" ++ "/") = false ∧
    ("/a" ∈ onToggleSelect ["/a"] "/a/b" ↔
      ("/a" = "/a/b" ∨ ("/a" ∈ (["/a"] : List String) ∧
        jsStartsWith "/a" ("/a/b" ++ "/") = false ∧
        jsStartsWith "/a/b" ("/a" ++ "/") = false))) :=
  ⟨onToggleSelect_no_nested_selection.1 ["/a", "/a/b"] "/a/b" (by decide)
      "/a/b" (by decide),
   onToggleSelect_no_nested_selection.2 ["/a"] "/a/b" (by decide) "/a"⟩

/-- C10: starting from disjoint include/exclude sets, `cycleTag` and
`removeTag` preserve disjointness; `cycleTag` steps the given tag through
none → include → exclude → none and leaves every other tag's membership in
both sets unchanged; `removeTag` drops the tag from both sets. -/
theorem cycleTag_spec (inc exc : List String) (tag : String)
    (hdisj : ∀ t, ¬(t ∈ inc ∧ t ∈ exc)) :
    (∀ t, ¬(t ∈ (cycleTag inc exc tag).1 ∧ t ∈ (cycleTag inc exc tag).2)) ∧
    (∀ t, t ≠ tag →
      ((t ∈ (cycleTag inc exc tag).1 ↔ t ∈ inc) ∧
       (t ∈ (cycleTag inc exc tag).2 ↔ t ∈ exc))) ∧
    (tag ∉ inc → tag ∉ exc →
      tag ∈ (cycleTag inc exc tag).1 ∧ tag ∉ (cycleTag inc exc tag).2) ∧
    (tag ∈ inc →
      tag ∉ (cycleTag inc exc tag).1 ∧ tag ∈ (cycleTag inc exc tag).2) ∧
    (tag ∈ exc → tag ∉ inc →
      tag ∉ (cycleTag inc exc tag).1 ∧ tag ∉ (cycleTag inc exc tag).2) ∧
    (∀ t, ¬(t ∈ (removeTag inc exc tag).1 ∧ t ∈ (removeTag inc exc tag).2)) ∧
    (tag ∉ (removeTag inc exc tag).1 ∧ tag ∉ (removeTag inc exc tag).2) := by
  unfold cycleTag removeTag
  by_cases hin : tag ∈ inc
  · rw [if_pos hin]
    have hnex : tag ∉ exc := fun hex => hdisj tag ⟨hin, hex⟩
    refine ⟨?_, ?_, ?_, ?_, ?_, ?_, ?_⟩
    · rintro t ⟨h1, h2⟩
      rw [mem_setDelete] at h1
      rw [mem_setAdd] at h2
      rcases h2 with h2 | rfl
      · exact hdisj t ⟨h1.1, h2⟩
      · exact h1.2 rfl
    · intro t ht
      rw [mem_setDelete, mem_setAdd]
      constructor
      · constructor
        · exact fun h => h.1
        · exact fun h => ⟨h, ht⟩
      · constructor
        · rintro (h | rfl)
          · exact h
          · exact absurd rfl ht
        · exact Or.inl
    · intro h
      exact absurd hin h
    · intro _
      refine ⟨?_, ?_⟩
      · rw [mem_setDelete]
        exact fun h => h.2 rfl
      · rw [mem_setAdd]
        exact Or.inr rfl
    · intro hex
      exact absurd hex hnex
    · rintro t ⟨h1, h2⟩
      rw [mem_setDelete] at h1 h2
      exact hdisj t ⟨h1.1, h2.1⟩
    · constructor
      · rw [mem_setDelete]
        exact fun h => h.2 rfl
      · rw [mem_setDelete]
        exact fun h => h.2 rfl
  · rw [if_neg hin]
    by_cases hex : tag ∈ exc
    · rw [if_pos hex]
      refine ⟨?_, ?_, ?_, ?_, ?_, ?_, ?_⟩
      · rintro t ⟨h1, h2⟩
        rw [mem_setDelete] at h2
        exact hdisj t ⟨h1, h2.1⟩
      · intro t ht
        rw [mem_setDelete]
        exact ⟨Iff.rfl, ⟨fun h => h.1, fun h => ⟨h, ht⟩⟩⟩
      · intro _ h
        exact absurd hex h
      · intro h
        exact absurd h hin
      · intro _ _
        refine ⟨hin, ?_⟩
        rw [mem_setDelete]
        exact fun h => h.2 rfl
      · rintro t ⟨h1, h2⟩
        rw [mem_setDelete] at h1 h2
        exact hdisj t ⟨h1.1, h2.1⟩
      · constructor
        · rw [mem_setDelete]
          exact fun h => h.2 rfl
        · rw [mem_setDelete]
          exact fun h => h.2 rfl
    · rw [if_neg hex]
      refine ⟨?_, ?_, ?_, ?_, ?_, ?_, ?_⟩
      · rintro t ⟨h1, h2⟩
        rw [mem_setAdd] at h1
        rcases h1 with h1 | rfl
        · exact hdisj t ⟨h1, h2⟩
        · exact hex h2
      · intro t ht
        rw [mem_setAdd]
        refine ⟨⟨?_, Or.inl⟩, Iff.rfl⟩
        rintro (h | rfl)
        · exact h
        · exact absurd rfl ht
      · intro _ _
        refine ⟨?_, hex⟩
        rw [mem_setAdd]
        exact Or.inr rfl
      · intro h
        exact absurd h hin
      · intro h
        exact absurd h hex
      · rintro t ⟨h1, h2⟩
        rw [mem_setDelete] at h1 h2
        exact hdisj t ⟨h1.1, h2.1⟩
      · constructor
        · rw [mem_setDelete]
          exact fun h => h.2 rfl
        · rw [mem_setDelete]
          exact fun h => h.2 rfl

/-- Closed instance of `cycleTag_spec`: cycling "x" out of the include set
["x"] moves it to the exclude set ["y", "x"], leaving "y" excluded, and the
two sets stay disjoint. -/
theorem cycleTag_spec_witness :
    ("x" ∉ (cycleTag ["x"] ["y"] "x").1 ∧ "x" ∈ (cycleTag ["x"] ["y"] "x").2) ∧
    (("y" : String) ∈ (cycleTag ["x"] ["y"] "x").2 ↔ ("y" : String) ∈ (["y"] : List String)) :=
  ⟨(cycleTag_spec ["x"] ["y"] "x"
      (by rintro t ⟨h1, h2⟩; simp at h1 h2; subst h1; exact absurd h2 (by decide))).2.2.2.1
      (by decide),
   ((cycleTag_spec ["x"] ["y"] "x"
      (by rintro t ⟨h1, h2⟩; simp at h1 h2; subst h1; exact absurd h2 (by decide))).2.1
      "y" (by decide)).2⟩

/-! ### Conflict replace-map lemmas -/

theorem handleConflictConfirm_eq (conflicts : List PackConflict)
    (decisions : String → ConflictAction) :
    handleConflictConfirm conflicts decisions =
      (conflicts.filter (fun c => decisions c.name == ConflictAction.replace)).map
        (fun c => (c.name, c.existing_uuid)) := by
  unfold handleConflictConfirm
  suffices h : ∀ acc : List (String × String),
      conflicts.foldl
        (fun m c => if decisions c.name = ConflictAction.replace
          then m ++ [(c.name, c.existing_uuid)] else m) acc =
      acc ++ (conflicts.filter (fun c => decisions c.name == ConflictAction.replace)).map
        (fun c => (c.name, c.existing_uuid)) by
    simpa using h []
  induction conflicts with
  | nil => intro acc; simp
  | cons c cs ih =>
    intro acc
    simp only [List.foldl_cons, List.filter_cons]
    by_cases h : decisions c.name = ConflictAction.replace
    · have hb : (decisions c.name == ConflictAction.replace) = true := by simp [h]
      rw [if_pos h, hb, ih]
      simp
    · have hb : (decisions c.name == ConflictAction.replace) = false := by simp [h]
      rw [if_neg h, hb, ih]
      simp

theorem lookup_conflictMap_isSome_iff (l : List PackConflict) (name : String) :
    (∃ uuid, (l.map (fun c => (c.name, c.existing_uuid))).lookup name = some uuid) ↔
      ∃ c ∈ l, c.name = name := by
  induction l with
  | nil => simp [List.lookup]
  | cons c cs ih =>
    by_cases h : name = c.name
    · subst h
      simp [List.lookup]
    · simp only [List.map_cons]
      rw [show List.lookup name ((c.name, c.existing_uuid) :: cs.map
          (fun c => (c.name, c.existing_uuid))) =
          List.lookup name (cs.map (fun c => (c.name, c.existing_uuid))) by
        simp [List.lookup, beq_eq_false_iff_ne.mpr h]]
      rw [ih]
      constructor
      · rintro ⟨d, hd, rfl⟩
        exact ⟨d, List.mem_cons.mpr (Or.inr hd), rfl⟩
      · rintro ⟨d, hd, rfl⟩
        rcases List.mem_cons.mp hd with rfl | hd'
        · exact absurd rfl h
        · exact ⟨d, hd', rfl⟩

theorem lookup_conflictMap_none {l : List PackConflict} {name : String}
    (h : ∀ c ∈ l, c.name ≠ name) :
    (l.map (fun c => (c.name, c.existing_uuid))).lookup name = none := by
  induction l with
  | nil => simp [List.lookup]
  | cons c cs ih =>
    have hc : c.name ≠ name := h c (List.mem_cons.mpr (Or.inl rfl))
    simp only [List.map_cons]
    rw [show List.lookup name ((c.name, c.existing_uuid) :: cs.map
        (fun c => (c.name, c.existing_uuid))) =
        List.lookup name (cs.map (fun c => (c.name, c.existing_uuid))) by
      simp [List.lookup, beq_eq_false_iff_ne.mpr (Ne.symm hc)]]
    exact ih (fun d hd => h d (List.mem_cons.mpr (Or.inr hd)))

theorem pairwise_name_inj {l : List PackConflict}
    (h : l.Pairwise (fun c d => c.name ≠ d.name)) :
    ∀ c ∈ l, ∀ d ∈ l, c.name = d.name → c = d := by
  induction l with
  | nil =>
    intro c hc
    cases hc
  | cons x xs ih =>
    rw [List.pairwise_cons] at h
    intro c hc d hd hcd
    rcases List.mem_cons.mp hc with rfl | hc' <;> rcases List.mem_cons.mp hd with rfl | hd'
    · rfl
    · exact absurd hcd (h.1 d hd')
    · exact absurd hcd.symm (h.1 c hc')
    · exact ih h.2 c hc' d hd' hcd

theorem lookup_conflictMap_mem {l : List PackConflict}
    (hinj : ∀ c ∈ l, ∀ d ∈ l, c.name = d.name → c = d) :
    ∀ c ∈ l, (l.map (fun c => (c.name, c.existing_uuid))).lookup c.name =
      some c.existing_uuid := by
  induction l with
  | nil =>
    intro c hc
    cases hc
  | cons x xs ih =>
    intro c hc
    simp only [List.map_cons]
    rcases List.mem_cons.mp hc with rfl | hc'
    · simp [List.lookup]
    · by_cases h : c.name = x.name
      · have : c = x := hinj c (List.mem_cons.mpr (Or.inr hc')) x
          (List.mem_cons.mpr (Or.inl rfl)) h
        subst this
        simp [List.lookup]
      · rw [show List.lookup c.name ((x.name, x.existing_uuid) :: xs.map
            (fun c => (c.name, c.existing_uuid))) =
            List.lookup c.name (xs.map (fun c => (c.name, c.existing_uuid))) by
          simp [List.lookup, beq_eq_false_iff_ne.mpr h]]
        exact ih
          (fun a ha b hb => hinj a (List.mem_cons.mpr (Or.inr ha)) b
            (List.mem_cons.mpr (Or.inr hb)))
          c hc'

/-- C7: the replace map built by `handleConflictConfirm` holds a name iff some
conflict with that name was decided "replace"; and when conflict names are
pairwise distinct, each conflict's name maps exactly to its existing uuid
when decided "replace" and is absent otherwise (so "add as new" names and
non-conflicting names are imported as new packs). -/
theorem replaceMap_spec (conflicts : List PackConflict)
    (decisions : String → ConflictAction) (name : String)
    (hnames : conflicts.Pairwise (fun c d => c.name ≠ d.name)) :
    ((∃ uuid, (handleConflictConfirm conflicts decisions).lookup name = some uuid) ↔
      ∃ c ∈ conflicts, c.name = name ∧ decisions name = ConflictAction.replace) ∧
    (∀ c ∈ conflicts,
      (handleConflictConfirm conflicts decisions).lookup c.name =
        if decisions c.name = ConflictAction.replace then some c.existing_uuid
        else none) := by
  rw [handleConflictConfirm_eq]
  constructor
  · rw [lookup_conflictMap_isSome_iff]
    constructor
    · rintro ⟨c, hc, rfl⟩
      have hc' := List.mem_filter.mp hc
      exact ⟨c, hc'.1, rfl, by simpa using hc'.2⟩
    · rintro ⟨c, hc, rfl, hrep⟩
      exact ⟨c, List.mem_filter.mpr ⟨hc, by simpa using hrep⟩, rfl⟩
  · intro c hc
    by_cases hrep : decisions c.name = ConflictAction.replace
    · rw [if_pos hrep]
      have hinj := pairwise_name_inj
        (hnames.sublist
          (List.filter_sublist (p := fun c => decisions c.name == ConflictAction.replace)
            conflicts))
      exact lookup_conflictMap_mem hinj c
        (List.mem_filter.mpr ⟨hc, by simpa using hrep⟩)
    · rw [if_neg hrep]
      apply lookup_conflictMap_none
      intro d hd hdc
      have hd' := List.mem_filter.mp hd
      have : d = c := pairwise_name_inj hnames d hd'.1 c hc hdc
      subst this
      exact hrep (by simpa using hd'.2)

/-- Closed instance of `replaceMap_spec`: with conflicts X (uuid u1) decided
"replace" and Y (uuid u2) decided "add as new", the replace map holds exactly
X ↦ u1 and Y is absent. -/
theorem replaceMap_spec_witness :
    (handleConflictConfirm [⟨"X", "u1", 3⟩, ⟨"Y", "u2", 1⟩]
        (fun n => if n = "X" then ConflictAction.replace else ConflictAction.addNew)).lookup
        "X" = some "u1" ∧
    (handleConflictConfirm [⟨"X", "u1", 3⟩, ⟨"Y", "u2", 1⟩]
        (fun n => if n = "X" then ConflictAction.replace else ConflictAction.addNew)).lookup
        "Y" = none := by
  have hnames : ([⟨"X", "u1", 3⟩, ⟨"Y", "u2", 1⟩] : List PackConflict).Pairwise
      (fun c d => c.name ≠ d.name) := by
    simp
  constructor
  · have := (replaceMap_spec [⟨"X", "u1", 3⟩, ⟨"Y", "u2", 1⟩]
      (fun n => if n = "X" then ConflictAction.replace else ConflictAction.addNew)
      "X" hnames).2 ⟨"X", "u1", 3⟩ (by decide)
    simpa using this
  · have := (replaceMap_spec [⟨"X", "u1", 3⟩, ⟨"Y", "u2", 1⟩]
      (fun n => if n = "X" then ConflictAction.replace else ConflictAction.addNew)
      "Y" hnames).2 ⟨"Y", "u2", 1⟩ (by decide)
    simpa using this

/-! ### Pagination lemmas -/

/-- When no stage is active, every stage guard of `applyFilters` is off and
the function returns its input list unchanged — the value-level half of the
fact that `filtered` is then reference-equal to `samples`. -/
theorem applyFilters_inactive_eq (samples : List Sample) (f : FilterSearch)
    (h : activeAny f = false) :
    applyFilters samples f.genres (bpmRangeOf f) f.keys f.type f.instruments
      f.includeTags f.excludeTags f.q = samples := by
  unfold activeAny at h
  simp only [Bool.or_eq_false_iff, decide_eq_false_iff_not] at h
  obtain ⟨⟨⟨⟨⟨⟨⟨hq, hg⟩, hb⟩, hk⟩, hty⟩, hins⟩, hinc⟩, hexc⟩ := h
  have hg2 : f.genres = [] := by simpa using hg
  have hk2 : f.keys = [] := by simpa using hk
  have hins2 : f.instruments = [] := by simpa using hins
  have hinc2 : f.includeTags = [] := by simpa using hinc
  have hexc2 : f.excludeTags = [] := by simpa using hexc
  have hty2 : f.type = "all" := by simpa using hty
  have hb2 : bpmRangeOf f = none := by
    cases hbr : bpmRangeOf f with
    | none => rfl
    | some rg => rw [hbr] at hb; simp at hb
  unfold applyFilters
  rw [show filterQuery f.q samples = samples by
    unfold filterQuery; rw [if_neg hq]]
  rw [show ∀ r, filterGenres f.genres r = r by
    intro r; unfold filterGenres; rw [if_neg (by rw [hg2]; simp)]]
  rw [show ∀ r, filterBpm (bpmRangeOf f) r = r by
    intro r; rw [hb2]; rfl]
  rw [show ∀ r, filterKeys f.keys r = r by
    intro r; unfold filterKeys; rw [if_neg (by rw [hk2]; simp)]]
  rw [show ∀ r, filterType f.type r = r by
    intro r; unfold filterType; rw [if_neg (by simp [hty2])]]
  rw [show ∀ r, filterInstruments f.instruments r = r by
    intro r; unfold filterInstruments; rw [if_neg (by rw [hins2]; simp)]]
  rw [show ∀ r, filterInclude f.includeTags r = r by
    intro r; unfold filterInclude; rw [if_neg (by rw [hinc2]; simp)]]
  rw [show ∀ r, filterExclude f.excludeTags r = r by
    intro r; unfold filterExclude; rw [if_neg (by rw [hexc2]; simp)]]

/-- A direction-only update (`onFiltersChange({sortDir: ...})`, line 1062)
changes no dependency of the `filtered` memo. -/
theorem filteredDepsChanged_dirOnly (f : FilterSearch) (d : SortDir) :
    filteredDepsChanged f { sortDir := some d } = false := by
  unfold filteredDepsChanged applyUpdate arrayDepChanged
  simp

/-- Counterexample to C6 as stated, on two concrete traces. (1) From page 2,
toggling the sort direction (line 1062, an `onFiltersChange` carrying only
`sortDir`) changes the sort, yet the page stays 2: no dependency of the reset
effect (`[filtered, sortBy, shuffleSeed]`) changes. (2) From
page 3 with no active filter, typing the first character of a query
(`onFiltersChange({q: "a"})`, line 1013) changes the filters and makes the
`filtered` memo recompute, but with every stage inactive the recomputation
returns the `samples` reference again, so the effect does not fire and the
page stays 3. -/
theorem page_not_reset_counterexample :
    (browserStep (browserStep initBrowserState (BrowserEvent.pageSet 2))
        (BrowserEvent.filtersChange { sortDir := some SortDir.desc })).filters.sortDir ≠
      (browserStep initBrowserState (BrowserEvent.pageSet 2)).filters.sortDir ∧
    (browserStep (browserStep initBrowserState (BrowserEvent.pageSet 2))
        (BrowserEvent.filtersChange { sortDir := some SortDir.desc })).page = 2 ∧
    (browserStep (browserStep initBrowserState (BrowserEvent.pageSet 3))
        (BrowserEvent.filtersChange { q := some "a" })).filters.q ≠
      (browserStep initBrowserState (BrowserEvent.pageSet 3)).filters.q ∧
    (browserStep (browserStep initBrowserState (BrowserEvent.pageSet 3))
        (BrowserEvent.filtersChange { q := some "a" })).page = 3 := by
  decide

/-- C6 (amended): the page size is fixed at 50 and page p displays elements
50·p, …, 50·(p+1)-1 of the sorted list. The page index resets to 0 exactly
when a dependency of the reset effect changes: on any filter update that
changes a `filtered`-memo dependency while some `applyFilters` stage is
active before or after the update, on any sort-key change, and on every
shuffle click. It is not reset by a direction-only sort toggle, nor by a
filter update after which no stage is active when none was active before
(then `filtered` stays reference-equal to `samples`; `applyFilters` provably
returns its input unchanged in that case). -/
theorem pagination_spec :
    PAGE_SIZE = 50 ∧
    (∀ (sorted : List Sample) (p i : Nat) (d : Sample),
      i < (displayedPage sorted p).length →
      (displayedPage sorted p).getD i d = sorted.getD (p * PAGE_SIZE + i) d) ∧
    (∀ (s : BrowserState) (u : FilterUpdate),
      filteredDepsChanged s.filters u = true →
      (activeAny (applyUpdate s.filters u) = true ∨ s.filteredActive = true) →
      (browserStep s (BrowserEvent.filtersChange u)).page = 0) ∧
    (∀ (s : BrowserState) (u : FilterUpdate),
      (applyUpdate s.filters u).sortBy ≠ s.filters.sortBy →
      (browserStep s (BrowserEvent.filtersChange u)).page = 0) ∧
    (∀ s : BrowserState, (browserStep s BrowserEvent.shuffleClick).page = 0) ∧
    (∀ (s : BrowserState) (d : SortDir),
      (browserStep s (BrowserEvent.filtersChange { sortDir := some d })).page =
        s.page) ∧
    (∀ (s : BrowserState) (u : FilterUpdate),
      activeAny (applyUpdate s.filters u) = false → s.filteredActive = false →
      (applyUpdate s.filters u).sortBy = s.filters.sortBy →
      (browserStep s (BrowserEvent.filtersChange u)).page = s.page) ∧
    (∀ (samples : List Sample) (f : FilterSearch), activeAny f = false →
      applyFilters samples f.genres (bpmRangeOf f) f.keys f.type f.instruments
        f.includeTags f.excludeTags f.q = samples) := by
  refine ⟨rfl, ?_, ?_, ?_, ?_, ?_, ?_, applyFilters_inactive_eq⟩
  · intro sorted p i d hi
    unfold displayedPage jsSlice at *
    have h2 : i < (sorted.drop (p * PAGE_SIZE)).length :=
      lt_of_lt_of_le hi (by simp [List.length_take])
    have h3 : p * PAGE_SIZE + i < sorted.length := by
      rw [List.length_drop] at h2
      omega
    rw [List.getD_eq_getElem _ _ hi, List.getD_eq_getElem _ _ h3]
    rw [List.getElem_take]
    exact (List.getElem_drop sorted) ..
  · intro s u hdeps hact
    show (renderStep s (applyUpdate s.filters u) (filteredDepsChanged s.filters u)
      s.shuffleSeed).page = 0
    have h2 : (activeAny (applyUpdate s.filters u) || s.filteredActive) = true := by
      rcases hact with h | h <;> simp [h]
    simp [renderStep, hdeps, h2]
  · intro s u hsort
    show (renderStep s (applyUpdate s.filters u) (filteredDepsChanged s.filters u)
      s.shuffleSeed).page = 0
    simp [renderStep, hsort]
  · intro s
    show (renderStep s _ _ (s.shuffleSeed + 1)).page = 0
    simp [renderStep]
  · intro s d
    show (renderStep s (applyUpdate s.filters { sortDir := some d })
      (filteredDepsChanged s.filters { sortDir := some d }) s.shuffleSeed).page = s.page
    rw [filteredDepsChanged_dirOnly]
    have hsort : (applyUpdate s.filters { sortDir := some d }).sortBy =
        s.filters.sortBy := rfl
    simp [renderStep, hsort]
  · intro s u hact hold hsort
    show (renderStep s (applyUpdate s.filters u) (filteredDepsChanged s.filters u)
      s.shuffleSeed).page = s.page
    simp [renderStep, hact, hold, hsort]

/-- Closed instance of `pagination_spec`: page 0 of a one-element list
displays that element at position 0·50+0, and a shuffle click from the
initial state resets the page. -/
theorem pagination_spec_witness :
    (displayedPage [exampleA] 0).getD 0 exampleB =
      [exampleA].getD (0 * PAGE_SIZE + 0) exampleB ∧
    (browserStep initBrowserState BrowserEvent.shuffleClick).page = 0 :=
  ⟨pagination_spec.2.1 [exampleA] 0 0 exampleB (by decide),
   pagination_spec.2.2.2.2.1 initBrowserState⟩

end Slice
